import Mathlib

/-!
# Verification of the BeagleBone HAL (rotary encoder, PWM0, servo)

Shallow embedding, in Lean 4, of the C sources under `hal/src/`:

* `rotary.c`  — quadrature decoding, button debounce, one-shot edge flag;
* `PWM0.c`    — PWM bring-up, frequency and duty reprogramming ladders;
* `servo.c`   — servo convenience layer over a PWM channel.

C `int`/`long long` values are modelled as `ℤ` (no arithmetic here ever
approaches the 32/64-bit overflow boundary), C `double` values as exact
fractions (`Frac` below), and every sysfs read or write as an input from /
an event recorded into an explicit environment, so that each C function
becomes a pure Lean function from (state, environment, arguments) to
(result, state, trace of attempted hardware writes).
-/

/-! ## Two's-complement bitwise helpers

`rotary.c` computes `(a<<1) | b` and `(last<<2) | state` on C `int`s whose
values may be `-1` (the failure value of `sysfs_read_int`).  On the
two's-complement machine the code targets, `x << k` on these small values
is `x * 2^k` and `|` is bitwise or on two's-complement integers.  `c_or`
is that bitwise or, written out on the `Int` constructors so that it
computes by kernel reduction (`Nat.ldiff` does not, hence `natLdiff`). -/

/-- `a AND (NOT b)` on naturals: the bits of `a` that are not in `b`.
Since `a &&& b` is a sub-mask of `a`, subtraction realizes bit removal. -/
def natLdiff (a b : Nat) : Nat := a - (a &&& b)

/-- Two's-complement bitwise or on mathematical integers; embeds C's `|`
on `int` for the (small, overflow-free) values arising in `rotary.c`. -/
def c_or (x y : Int) : Int :=
  match x, y with
  | .ofNat m, .ofNat n => .ofNat (m ||| n)
  | .ofNat m, .negSucc n => .negSucc (natLdiff n m)
  | .negSucc m, .ofNat n => .negSucc (natLdiff m n)
  | .negSucc m, .negSucc n => .negSucc (m &&& n)

/-! ## `rotary.c` — encoder polling thread, one tick

State of the polling loop in `encoder_thread` plus the shared atomics.
`g_button_edge` only ever holds 0 or 1 (`atomic_store(...,1)` /
`atomic_exchange(...,0)`), so it is a `Bool` here.  `last_sw_time` is a
`struct timespec`; we keep its two fields. -/

structure EncState where
  /-- `g_pos`: the shared position counter. -/
  pos : ℤ
  /-- `last`: previously sampled 2-bit quadrature state (or a negative
  garbage value after a failed read). -/
  last : ℤ
  /-- `last_sw`: previously sampled button level (`-1` after a failed read). -/
  lastSw : ℤ
  /-- `last_sw_time.tv_sec`. -/
  lastSwSec : ℤ
  /-- `last_sw_time.tv_nsec`. -/
  lastSwNsec : ℤ
  /-- `g_button_edge`: one-shot debounced press flag. -/
  buttonEdge : Bool
deriving DecidableEq, Repr

/-- `(a<<1) | b`: pack the two phase samples into a 2-bit state. -/
def quad_state (a b : ℤ) : ℤ := c_or (2 * a) b

/-- `(last<<2) | state`: the 4-bit transition code. -/
def quad_diff (last state : ℤ) : ℤ := c_or (4 * last) state

/-- The `switch (diff)` of `encoder_thread`: position change applied for a
transition code (`+1` / `-1` / ignore). -/
def quad_delta (diff : ℤ) : ℤ :=
  if diff = 0x1 ∨ diff = 0x7 ∨ diff = 0xE ∨ diff = 0x8 then 1
  else if diff = 0x2 ∨ diff = 0x4 ∨ diff = 0xD ∨ diff = 0xB then -1
  else 0

/-- `(now.tv_sec - last.tv_sec)*1000 + (now.tv_nsec - last.tv_nsec)/1000000`
with C's truncating division. -/
def dt_ms (s : EncState) (nowSec nowNsec : ℤ) : ℤ :=
  (nowSec - s.lastSwSec) * 1000 + Int.tdiv (nowNsec - s.lastSwNsec) 1000000

/-- One iteration of the polling loop in `encoder_thread`.  `a`, `b`, `sw`
are the three `sysfs_read_int` results for this tick (each in
`{-1, 0, 1}`; `-1` means the read failed), `nowSec`/`nowNsec` the
`clock_gettime` result. -/
def encoder_tick (s : EncState) (a b sw nowSec nowNsec : ℤ) : EncState :=
  let state := quad_state a b
  let pos' := s.pos + quad_delta (quad_diff s.last state)
  if sw ≠ s.lastSw then
    { pos := pos', last := state, lastSw := sw,
      lastSwSec := nowSec, lastSwNsec := nowNsec,
      buttonEdge := if sw = 1 ∧ dt_ms s nowSec nowNsec > 50 then true
                    else s.buttonEdge }
  else
    { s with pos := pos', last := state }

/-- The inputs of one polling tick (read results and clock sample). -/
structure TickIn where
  a : ℤ
  b : ℤ
  sw : ℤ
  nowSec : ℤ
  nowNsec : ℤ
deriving DecidableEq, Repr

/-- Run the polling loop over a list of tick inputs. -/
def run_ticks (s : EncState) (l : List TickIn) : EncState :=
  l.foldl (fun s t => encoder_tick s t.a t.b t.sw t.nowSec t.nowNsec) s

/-- `rotaryEncoder_button_pressed`: `atomic_exchange(&g_button_edge, 0) != 0`,
returning the old flag and the state with the flag cleared. -/
def rotaryEncoder_button_pressed (s : EncState) : Bool × EncState :=
  (s.buttonEdge, { s with buttonEdge := false })

/-- `rotaryEncoder_get_position`: `atomic_load(&g_pos)`. -/
def rotaryEncoder_get_position (s : EncState) : ℤ := s.pos

/-- `rotaryEncoder_set_position`: `atomic_store(&g_pos, v)`. -/
def rotaryEncoder_set_position (s : EncState) (v : ℤ) : EncState :=
  { s with pos := v }

/-! Specification-side Gray-cycle vocabulary, used to compare the code's
transition table with the spec's description of the forward cycle
`00 → 01 → 11 → 10 → 00`. -/

/-- Successor in the forward Gray cycle `0 → 1 → 3 → 2 → 0`
(states written as 2-bit values `(A<<1)|B`). -/
def spec_gray_next (st : ℤ) : ℤ :=
  if st = 0 then 1 else if st = 1 then 3 else if st = 3 then 2 else 0

theorem encoder_tick_pos (s : EncState) (a b sw tS tN : ℤ) :
    (encoder_tick s a b sw tS tN).pos
      = s.pos + quad_delta (quad_diff s.last (quad_state a b)) := by
  unfold encoder_tick
  split <;> rfl

theorem encoder_tick_last (s : EncState) (a b sw tS tN : ℤ) :
    (encoder_tick s a b sw tS tN).last = quad_state a b := by
  unfold encoder_tick
  split <;> rfl

theorem quad_delta_fwd (l : ℤ) (h : l = 0 ∨ l = 1 ∨ l = 2 ∨ l = 3) :
    quad_delta (quad_diff l (spec_gray_next l)) = 1 := by
  rcases h with rfl | rfl | rfl | rfl <;> decide

theorem quad_delta_rev (st : ℤ) (h : st = 0 ∨ st = 1 ∨ st = 2 ∨ st = 3) :
    quad_delta (quad_diff (spec_gray_next st) st) = -1 := by
  rcases h with rfl | rfl | rfl | rfl <;> decide

/-- C1: combining consecutive 2-bit quadrature samples into a 4-bit code,
exactly the 4 forward-Gray-cycle codes `0x1, 0x7, 0xE, 0x8` add 1 to the
position, exactly the reverse-cycle codes `0x2, 0x4, 0xD, 0xB` subtract 1,
and the remaining 8 codes leave it unchanged; each valid forward
transition of the cycle `00→01→11→10→00` adds exactly 1 and each reverse
transition subtracts exactly 1 (a full lap gains respectively loses 4). -/
theorem c1_gray_transition_table :
    -- per tick, the position change is table-driven on the 4-bit code
    (∀ (s : EncState) (a b sw tS tN : ℤ),
        (encoder_tick s a b sw tS tN).pos
          = s.pos + quad_delta (quad_diff s.last (quad_state a b))
        ∧ (encoder_tick s a b sw tS tN).last = quad_state a b) ∧
    -- for in-range samples the code is 4*last + state, and the table is
    -- exactly the Gray-cycle table
    (∀ l st : Fin 4, quad_diff (l : ℤ) (st : ℤ) = 4 * (l : ℤ) + (st : ℤ)) ∧
    (∀ l st : Fin 4,
        quad_delta (quad_diff (l : ℤ) (st : ℤ))
          = (if (st : ℤ) = spec_gray_next (l : ℤ) then 1
             else if (l : ℤ) = spec_gray_next (st : ℤ) then -1 else 0)) ∧
    -- exactly the 4 forward codes give +1, the 4 reverse codes give -1,
    -- the remaining 8 give 0
    (Finset.univ.filter (fun d : Fin 16 => quad_delta (d : ℤ) = 1)
        = ({0x1, 0x7, 0xE, 0x8} : Finset (Fin 16))) ∧
    (Finset.univ.filter (fun d : Fin 16 => quad_delta (d : ℤ) = -1)
        = ({0x2, 0x4, 0xD, 0xB} : Finset (Fin 16))) ∧
    (Finset.univ.filter (fun d : Fin 16 => quad_delta (d : ℤ) = 0)).card = 8 ∧
    -- a valid forward transition adds exactly 1, a reverse one subtracts 1
    (∀ (s : EncState) (a b sw tS tN : ℤ),
        (s.last = 0 ∨ s.last = 1 ∨ s.last = 2 ∨ s.last = 3) →
        quad_state a b = spec_gray_next s.last →
        (encoder_tick s a b sw tS tN).pos = s.pos + 1) ∧
    (∀ (s : EncState) (a b sw tS tN : ℤ),
        (quad_state a b = 0 ∨ quad_state a b = 1 ∨ quad_state a b = 2 ∨
          quad_state a b = 3) →
        s.last = spec_gray_next (quad_state a b) →
        (encoder_tick s a b sw tS tN).pos = s.pos - 1) ∧
    -- one full forward lap of the cycle 00→01→11→10→00 gains 4,
    -- the reverse lap loses 4
    (∀ p : ℤ,
        (run_ticks { pos := p, last := 0, lastSw := 0, lastSwSec := 0,
                     lastSwNsec := 0, buttonEdge := false }
            [⟨0,1,0,0,0⟩, ⟨1,1,0,0,0⟩, ⟨1,0,0,0,0⟩, ⟨0,0,0,0,0⟩]).pos = p + 4
        ∧ (run_ticks { pos := p, last := 0, lastSw := 0, lastSwSec := 0,
                       lastSwNsec := 0, buttonEdge := false }
            [⟨1,0,0,0,0⟩, ⟨1,1,0,0,0⟩, ⟨0,1,0,0,0⟩, ⟨0,0,0,0,0⟩]).pos = p - 4) := by
  refine ⟨fun s a b sw tS tN => ⟨encoder_tick_pos .., encoder_tick_last ..⟩,
    by decide, by decide, by decide, by decide, by decide, ?_, ?_, ?_⟩
  · intro s a b sw tS tN hl hst
    rw [encoder_tick_pos, hst, quad_delta_fwd s.last hl]
  · intro s a b sw tS tN hst hl
    rw [encoder_tick_pos, hl, quad_delta_rev _ hst]
    ring
  · intro p
    constructor <;>
      · simp [run_ticks, encoder_tick, quad_state, quad_diff, quad_delta, c_or, natLdiff]
        ring

theorem c1_gray_transition_table_witness :
    (encoder_tick ⟨0, 0, 0, 0, 0, false⟩ 0 1 0 0 0).pos = 0 + 1 ∧
    (encoder_tick ⟨0, 3, 0, 0, 0, false⟩ 0 1 0 0 0).pos = 0 - 1 := by
  refine ⟨c1_gray_transition_table.2.2.2.2.2.2.1 ⟨0, 0, 0, 0, 0, false⟩ 0 1 0 0 0
      (by decide) (by decide),
    c1_gray_transition_table.2.2.2.2.2.2.2.1 ⟨0, 3, 0, 0, 0, false⟩ 0 1 0 0 0
      (by decide) (by decide)⟩

/-! ## Claim theorems for the button debounce (C2, C3, C4) -/

theorem encoder_tick_button_change (s : EncState) (a b sw tS tN : ℤ)
    (h : sw ≠ s.lastSw) :
    (encoder_tick s a b sw tS tN).lastSw = sw ∧
    (encoder_tick s a b sw tS tN).lastSwSec = tS ∧
    (encoder_tick s a b sw tS tN).lastSwNsec = tN ∧
    (encoder_tick s a b sw tS tN).buttonEdge
      = (if sw = 1 ∧ dt_ms s tS tN > 50 then true else s.buttonEdge) := by
  unfold encoder_tick
  rw [if_pos h]
  exact ⟨rfl, rfl, rfl, rfl⟩

theorem encoder_tick_button_same (s : EncState) (a b sw tS tN : ℤ)
    (h : sw = s.lastSw) :
    (encoder_tick s a b sw tS tN).lastSw = s.lastSw ∧
    (encoder_tick s a b sw tS tN).lastSwSec = s.lastSwSec ∧
    (encoder_tick s a b sw tS tN).lastSwNsec = s.lastSwNsec ∧
    (encoder_tick s a b sw tS tN).buttonEdge = s.buttonEdge := by
  unfold encoder_tick
  rw [if_neg (by simpa using h)]
  exact ⟨rfl, rfl, rfl, rfl⟩

/-- C2 (counterexample): the claim says only a *registered* rising edge
updates the debounce timestamp and that a rising edge is registered
whenever more than 50 ms passed since the last registration.  Concretely:
a press is registered at t = 100 ms; a falling edge at t = 130 ms
registers nothing but still moves the timestamp to 130 ms; the next
rising edge at t = 160 ms — 60 ms after the last registered edge, which
the claim says must be registered — is silently dropped. -/
theorem c2_debounce_counterexample :
    (encoder_tick ⟨0, 0, 0, 0, 0, false⟩ 0 0 1 0 100000000).buttonEdge = true ∧
    (encoder_tick ⟨0, 0, 0, 0, 0, false⟩ 0 0 1 0 100000000).lastSwNsec
      = 100000000 ∧
    (encoder_tick
        (rotaryEncoder_button_pressed
          (encoder_tick ⟨0, 0, 0, 0, 0, false⟩ 0 0 1 0 100000000)).2
        0 0 0 0 130000000).buttonEdge = false ∧
    (encoder_tick
        (rotaryEncoder_button_pressed
          (encoder_tick ⟨0, 0, 0, 0, 0, false⟩ 0 0 1 0 100000000)).2
        0 0 0 0 130000000).lastSwNsec = 130000000 ∧
    (encoder_tick
        (encoder_tick
          (rotaryEncoder_button_pressed
            (encoder_tick ⟨0, 0, 0, 0, 0, false⟩ 0 0 1 0 100000000)).2
          0 0 0 0 130000000)
        0 0 1 0 160000000).buttonEdge = false := by
  decide

/-- C2 (amended): on every tick where the sampled level differs from the
previous sample, the code unconditionally updates the tracked level and
the debounce timestamp, and it sets the one-shot flag exactly when the
new level is high and more than 50 ms elapsed since the last *level
change* (not since the last registered edge); ticks with an unchanged
level alter neither level, timestamp nor flag. -/
theorem c2_debounce_amended :
    (∀ (s : EncState) (a b sw tS tN : ℤ), sw ≠ s.lastSw →
        (encoder_tick s a b sw tS tN).lastSw = sw ∧
        (encoder_tick s a b sw tS tN).lastSwSec = tS ∧
        (encoder_tick s a b sw tS tN).lastSwNsec = tN ∧
        (encoder_tick s a b sw tS tN).buttonEdge
          = (if sw = 1 ∧ dt_ms s tS tN > 50 then true else s.buttonEdge)) ∧
    (∀ (s : EncState) (a b sw tS tN : ℤ), sw = s.lastSw →
        (encoder_tick s a b sw tS tN).lastSw = s.lastSw ∧
        (encoder_tick s a b sw tS tN).lastSwSec = s.lastSwSec ∧
        (encoder_tick s a b sw tS tN).lastSwNsec = s.lastSwNsec ∧
        (encoder_tick s a b sw tS tN).buttonEdge = s.buttonEdge) :=
  ⟨fun s a b sw tS tN h => encoder_tick_button_change s a b sw tS tN h,
   fun s a b sw tS tN h => encoder_tick_button_same s a b sw tS tN h⟩

theorem c2_debounce_amended_witness :
    (encoder_tick ⟨0, 0, 0, 0, 0, false⟩ 0 0 1 5 0).lastSwSec = 5 ∧
    (encoder_tick ⟨0, 0, 0, 0, 0, false⟩ 0 0 1 5 0).buttonEdge = true := by
  have h := c2_debounce_amended.1 ⟨0, 0, 0, 0, 0, false⟩ 0 0 1 5 0 (by decide)
  exact ⟨h.2.1, by rw [h.2.2.2]; decide⟩

theorem quad_delta_negSucc (k : ℕ) : quad_delta (Int.negSucc k) = 0 := by
  unfold quad_delta
  rw [Int.negSucc_eq]
  split_ifs with h1 h2
  · rcases h1 with h | h | h | h <;> omega
  · rcases h2 with h | h | h | h <;> omega
  · rfl

theorem quad_delta_neg (l st : ℤ) (h : st < 0) :
    quad_delta (quad_diff l st) = 0 := by
  cases st with
  | ofNat n => exact absurd h (Int.ofNat_nonneg n).not_lt
  | negSucc n =>
      unfold quad_diff
      cases h4 : (4 * l) with
      | ofNat m => exact quad_delta_negSucc (natLdiff n m)
      | negSucc m => exact quad_delta_negSucc (m &&& n)

/-- C3 (counterexample): the claim says a tick on which any of the three
reads fails leaves position and flag untouched, and that no
failure-then-recovery sequence can set the flag without a qualifying
press.  Concretely: a tick whose switch read fails but whose phase reads
show a forward transition still increments the position; and a switch
read failure on a button held high, followed one second later by a
successful read of the same held level, sets the flag although no press
occurred. -/
theorem c3_read_failure_counterexample :
    (encoder_tick ⟨0, 0, 1, 0, 0, false⟩ 0 1 (-1) 0 0).pos = 1 ∧
    (encoder_tick ⟨0, 0, 1, 0, 0, false⟩ 0 0 (-1) 1 0).buttonEdge = false ∧
    (encoder_tick (encoder_tick ⟨0, 0, 1, 0, 0, false⟩ 0 0 (-1) 1 0)
        0 0 1 2 0).buttonEdge = true := by
  decide

/-- C3 (amended): reads fail independently.  A failed phase read yields an
out-of-table transition code, so such a tick never changes the position
(the position may still change on a tick where only the switch read
fails); a failed switch read never sets the flag on its own tick, and no
error is surfaced anywhere; but a failed switch read is treated as a
level change — it overwrites the tracked level and the debounce
timestamp — so a successful read of a still-held button more than 50 ms
later sets the flag without an intervening press. -/
theorem c3_read_failure_amended :
    (∀ (s : EncState) (a b sw tS tN : ℤ),
        (a = -1 ∨ a = 0 ∨ a = 1) → (b = -1 ∨ b = 0 ∨ b = 1) →
        (a = -1 ∨ b = -1) →
        (encoder_tick s a b sw tS tN).pos = s.pos) ∧
    (∀ (s : EncState) (a b tS tN : ℤ),
        (encoder_tick s a b (-1) tS tN).buttonEdge = s.buttonEdge) ∧
    (∀ (s : EncState) (a b tS tN : ℤ), s.lastSw ≠ -1 →
        (encoder_tick s a b (-1) tS tN).lastSw = -1) ∧
    ((encoder_tick (encoder_tick ⟨0, 0, 1, 0, 0, false⟩ 0 0 (-1) 1 0)
        0 0 1 2 0).buttonEdge = true) := by
  refine ⟨?_, ?_, ?_, by decide⟩
  · intro s a b sw tS tN ha hb hfail
    have hneg : quad_state a b < 0 := by
      rcases hfail with rfl | rfl
      · rcases hb with rfl | rfl | rfl <;> decide
      · rcases ha with rfl | rfl | rfl <;> decide
    rw [encoder_tick_pos, quad_delta_neg _ _ hneg, add_zero]
  · intro s a b tS tN
    by_cases h : (-1 : ℤ) = s.lastSw
    · exact (encoder_tick_button_same s a b (-1) tS tN h).2.2.2
    · rw [(encoder_tick_button_change s a b (-1) tS tN h).2.2.2]
      norm_num
  · intro s a b tS tN h
    exact (encoder_tick_button_change s a b (-1) tS tN (fun hh => h hh.symm)).1

theorem c3_read_failure_amended_witness :
    (encoder_tick ⟨7, 2, 0, 0, 0, false⟩ (-1) 1 0 0 0).pos = 7 ∧
    (encoder_tick ⟨7, 2, 0, 0, 0, true⟩ 0 0 (-1) 9 0).buttonEdge = true ∧
    (encoder_tick ⟨7, 2, 0, 0, 0, false⟩ 0 0 (-1) 9 0).lastSw = -1 := by
  refine ⟨c3_read_failure_amended.1 ⟨7, 2, 0, 0, 0, false⟩ (-1) 1 0 0 0
      (by decide) (by decide) (by decide),
    c3_read_failure_amended.2.1 ⟨7, 2, 0, 0, 0, true⟩ 0 0 9 0,
    c3_read_failure_amended.2.2.1 ⟨7, 2, 0, 0, 0, false⟩ 0 0 9 0 (by decide)⟩

theorem run_ticks_const_sw (s : EncState) (l : List TickIn)
    (h : ∀ t ∈ l, t.sw = s.lastSw) :
    (run_ticks s l).buttonEdge = s.buttonEdge ∧
    (run_ticks s l).lastSw = s.lastSw := by
  induction l generalizing s with
  | nil => exact ⟨rfl, rfl⟩
  | cons t ts ih =>
      have ht : t.sw = s.lastSw := h t (List.mem_cons_self t ts)
      have hs := encoder_tick_button_same s t.a t.b t.sw t.nowSec t.nowNsec ht
      have hrec := ih (encoder_tick s t.a t.b t.sw t.nowSec t.nowNsec)
        (fun u hu => (h u (List.mem_cons_of_mem t hu)).trans hs.1.symm)
      refine ⟨?_, ?_⟩
      · exact hrec.1.trans hs.2.2.2
      · exact hrec.2.trans hs.1

/-- C4: `rotaryEncoder_button_pressed` reads and clears the one-shot flag
in one exchange step: it reports exactly the old flag, always leaves the
flag unset and touches nothing else, so an immediate second call reports
false; and a press held with no release (every later sample equal to the
tracked level) never re-sets the flag, hence is reported exactly once. -/
theorem c4_take_button_edge :
    (∀ s : EncState,
        (rotaryEncoder_button_pressed s).1 = s.buttonEdge ∧
        (rotaryEncoder_button_pressed s).2 = { s with buttonEdge := false } ∧
        (rotaryEncoder_button_pressed (rotaryEncoder_button_pressed s).2).1
          = false) ∧
    (∀ (s : EncState) (l : List TickIn),
        (∀ t ∈ l, t.sw = s.lastSw) →
        (run_ticks s l).buttonEdge = s.buttonEdge ∧
        (run_ticks s l).lastSw = s.lastSw) ∧
    (∀ (s : EncState) (l : List TickIn),
        (∀ t ∈ l, t.sw = s.lastSw) →
        (rotaryEncoder_button_pressed
          (run_ticks (rotaryEncoder_button_pressed s).2 l)).1 = false) := by
  refine ⟨fun s => ⟨rfl, rfl, rfl⟩, run_ticks_const_sw, ?_⟩
  intro s l h
  exact (run_ticks_const_sw { s with buttonEdge := false } l h).1

theorem c4_take_button_edge_witness :
    (rotaryEncoder_button_pressed ⟨0, 0, 1, 0, 0, true⟩).1 = true ∧
    (rotaryEncoder_button_pressed
      (run_ticks (rotaryEncoder_button_pressed ⟨0, 0, 1, 0, 0, true⟩).2
        [⟨0, 0, 1, 0, 0⟩, ⟨0, 0, 1, 1, 0⟩, ⟨0, 0, 1, 2, 0⟩])).1 = false := by
  refine ⟨(c4_take_button_edge.1 ⟨0, 0, 1, 0, 0, true⟩).1, ?_⟩
  exact c4_take_button_edge.2.2 ⟨0, 0, 1, 0, 0, true⟩
    [⟨0, 0, 1, 0, 0⟩, ⟨0, 0, 1, 1, 0⟩, ⟨0, 0, 1, 2, 0⟩]
    (by intro t ht; fin_cases ht <;> rfl)

/-! ## `PWM0.c` — exact model of the `double` arithmetic

The only `double` values in `PWM0.c` are duty fractions and `1e9/hz`;
we model them as exact fractions with a positive denominator (every
fraction the code constructs has one).  `llround` is C's round half away
from zero. -/

structure Frac where
  n : ℤ
  d : ℤ
deriving DecidableEq, Repr

/-- `a < b` on fractions with positive denominators, by cross
multiplication. -/
def Frac.blt (a b : Frac) : Bool := decide (a.n * b.d < b.n * a.d)

/-- `a <= b` on fractions with positive denominators. -/
def Frac.ble (a b : Frac) : Bool := decide (a.n * b.d ≤ b.n * a.d)

/-- `ratio * (double)per`. -/
def Frac.mulInt (q : Frac) (k : ℤ) : Frac := ⟨q.n * k, q.d⟩

/-- `a / b` (used for `1e9 / hz`, where `hz > 0`). -/
def Frac.div (a b : Frac) : Frac := ⟨a.n * b.d, a.d * b.n⟩

/-- `⌊q + 1/2⌋` for a fraction with positive denominator. -/
def Frac.half_up (q : Frac) : ℤ := Int.fdiv (2 * q.n + q.d) (2 * q.d)

/-- C `llround`: round to nearest, halves away from zero. -/
def llround (q : Frac) : ℤ :=
  if 0 ≤ q.n then Frac.half_up q else -(Frac.half_up ⟨-q.n, q.d⟩)

/-- `bounded_dc_from_ratio` of `PWM0.c`: clamp the ratio into
`[0.05, 0.95]`, scale by the period, round, then keep strictly off the
rails. -/
def bounded_dc_from_ratio (ratio : Frac) (per : ℤ) : ℤ :=
  let r1 := if Frac.blt ratio ⟨1, 20⟩ then (⟨1, 20⟩ : Frac) else ratio
  let r2 := if Frac.blt ⟨19, 20⟩ r1 then (⟨19, 20⟩ : Frac) else r1
  let dc := llround (r2.mulInt per)
  let dc1 := if dc ≤ 0 then 1 else dc
  if dc1 ≥ per then per - 1 else dc1

-- sanity checks
example : llround ⟨1, 2⟩ = 1 := by decide
example : llround ⟨1, 10⟩ = 0 := by decide
example : llround ⟨-1, 2⟩ = -1 := by decide
example : bounded_dc_from_ratio ⟨1, 2⟩ 10000000 = 5000000 := by decide
example : bounded_dc_from_ratio ⟨1, 100⟩ 10000000 = 500000 := by decide
example : bounded_dc_from_ratio ⟨1, 2⟩ 1 = 0 := by decide

/-! ## `PWM0.c` — state, hardware events, environments -/

/-- The module state of `PWM0.c`: whether `g_pwm_dir` holds a directory,
the cached period and the remembered duty ratio. -/
structure PwmState where
  dir_ok : Bool
  period_ns : ℤ
  duty_frac : Frac
deriving DecidableEq, Repr

/-- The state at program start (`g_pwm_dir` empty, `g_period_ns = 0`,
`g_duty_frac = 0.50`). -/
def PwmState.initial : PwmState := ⟨false, 0, ⟨1, 2⟩⟩

/-- One attempted sysfs write of `PWM0.c` (the trace records the value
written and whether the write succeeded). -/
inductive PwmEv where
  | wExport (chip : ℕ)
  | wEnable (v : ℤ)
  | wPeriod (v : ℤ)
  | wDuty (v : ℤ)
deriving DecidableEq, Repr

/-- Environment of one `pwmchipN` during `probe_find_pwm`: whether
`pwm0` already exists, the result of the (ignored) export write, whether
`pwm0` exists at each 10 ms poll of the bounded wait, and whether the
`enable`/`period`/`duty_cycle` files are all present. -/
structure ChipEnv where
  pwm0_exists : Bool
  export_ok : Bool
  appear : ℕ → Bool
  files_ok : Bool

/-- The bounded wait of `probe_find_pwm`: `pwm0` is found if it already
existed or shows up at one of the (at most 51) existence checks during
the 50 × 10 ms polling window. -/
def chip_wait_found (c : ChipEnv) : Bool :=
  c.pwm0_exists || (List.range 51).any c.appear

/-- The chip walk of `probe_find_pwm`: for each globbed chip in order,
export `pwm0` if needed and wait for it; succeed on the first chip whose
`pwm0` appears with all three control files. -/
def probe_loop : List ChipEnv → ℕ → Bool × List (PwmEv × Bool)
  | [], _ => (false, [])
  | c :: rest, i =>
      let tr0 : List (PwmEv × Bool) :=
        if c.pwm0_exists then [] else [(.wExport i, c.export_ok)]
      if chip_wait_found c && c.files_ok then (true, tr0)
      else
        let r := probe_loop rest (i + 1)
        (r.1, tr0 ++ r.2)

/-- `probe_find_pwm`: immediately succeed if `g_pwm_dir` is already set,
otherwise walk the globbed chips. -/
def probe_find_pwm (dir_ok : Bool) (chips : List ChipEnv) :
    Bool × List (PwmEv × Bool) :=
  if dir_ok then (true, []) else probe_loop chips 0

/-- Write outcomes for one attempt of the 5-step bring-up sequence of
`PWM0_init` (steps 1 and 2 are `(void)` writes whose result the code
ignores). -/
structure InitAttemptEnv where
  en0_ok : Bool
  prime_ok : Bool
  per_ok : Bool
  duty_ok : Bool
  en1_ok : Bool
deriving DecidableEq, Repr

/-- An attempt succeeds iff its three checked writes (steps 3–5) all
succeed. -/
def init_attempt_ok (e : InitAttemptEnv) : Bool := e.per_ok && e.duty_ok && e.en1_ok

/-- One attempt of the bring-up sequence: disable, prime duty to 1 ns,
then the three checked writes, stopping at the first failed one. -/
def init_attempt (e : InitAttemptEnv) (per dty : ℤ) : Bool × List (PwmEv × Bool) :=
  let t0 : List (PwmEv × Bool) := [(.wEnable 0, e.en0_ok), (.wDuty 1, e.prime_ok)]
  if e.per_ok then
    if e.duty_ok then
      if e.en1_ok then
        (true, t0 ++ [(.wPeriod per, true), (.wDuty dty, true), (.wEnable 1, true)])
      else
        (false, t0 ++ [(.wPeriod per, true), (.wDuty dty, true), (.wEnable 1, false)])
    else (false, t0 ++ [(.wPeriod per, true), (.wDuty dty, false)])
  else (false, t0 ++ [(.wPeriod per, false)])

/-- The retry loop of `PWM0_init` (`for attempt = 0 .. 2`): run attempts
until one succeeds or the fuel is exhausted. -/
def init_loop (env : ℕ → InitAttemptEnv) (per dty : ℤ) : ℕ → ℕ → Bool × List (PwmEv × Bool)
  | _, 0 => (false, [])
  | i, fuel + 1 =>
      let a := init_attempt (env i) per dty
      if a.1 then a
      else
        let r := init_loop env per dty (i + 1) fuel
        (r.1, a.2 ++ r.2)

/-- `1e9`. -/
def frac_1e9 : Frac := ⟨1000000000, 1⟩

/-- `per_ns = llround(1e9/hz); if (per_ns < 1) per_ns = 1;`. -/
def pwm_period_of_hz (hz : Frac) : ℤ :=
  let p := llround (Frac.div frac_1e9 hz)
  if p < 1 then 1 else p

/-- `if (hz <= 0.0) hz = 100.0;`. -/
def init_sanitize_hz (hz : Frac) : Frac :=
  if Frac.ble hz ⟨0, 1⟩ then ⟨100, 1⟩ else hz

/-- `if (duty < 0.05) duty = 0.50;  if (duty > 0.95) duty = 0.50;`. -/
def init_sanitize_duty (duty : Frac) : Frac :=
  let d1 := if Frac.blt duty ⟨1, 20⟩ then (⟨1, 2⟩ : Frac) else duty
  if Frac.blt ⟨19, 20⟩ d1 then (⟨1, 2⟩ : Frac) else d1

/-- `PWM0_init(hz, duty)`: probe for a usable `pwm0` (skipped if the
directory is already known), sanitize the arguments, then run the
bring-up loop; cache period and duty ratio only on success. -/
def PWM0_init (chips : List ChipEnv) (env : ℕ → InitAttemptEnv)
    (hz duty : Frac) (s : PwmState) : Bool × PwmState × List (PwmEv × Bool) :=
  let probe := probe_find_pwm s.dir_ok chips
  if probe.1 = false then (false, s, probe.2)
  else
    let s1 := { s with dir_ok := true }
    let per := pwm_period_of_hz (init_sanitize_hz hz)
    let dty := bounded_dc_from_ratio (init_sanitize_duty duty) per
    let r := init_loop env per dty 0 3
    if r.1 then
      (true, { s1 with period_ns := per, duty_frac := ⟨dty, per⟩ }, probe.2 ++ r.2)
    else (false, s1, probe.2 ++ r.2)

-- sanity: a fully good environment commits 50 % when asked for 1 %
example :
    (PWM0_init [⟨true, true, fun _ => true, true⟩] (fun _ => ⟨true, true, true, true, true⟩)
      ⟨100, 1⟩ ⟨1, 100⟩ PwmState.initial).2.1.duty_frac = ⟨5000000, 10000000⟩ := by
  decide

/-- Write outcomes for one attempt of the full-reset fallback of
`PWM0_set_freq` (disable and prime are `(void)`; `backoff_ok` is the
`(void)` re-enable of the back-off path). -/
structure FreqFbEnv where
  en0_ok : Bool
  prime_ok : Bool
  per_ok : Bool
  duty_ok : Bool
  en1_ok : Bool
  backoff_ok : Bool
deriving DecidableEq, Repr

/-- One fallback attempt of `PWM0_set_freq`: disable, prime, program
period and duty; on success of both, enabling decides the attempt; on a
failed program the back-off re-enables before the next attempt. -/
def freq_fb_attempt (e : FreqFbEnv) (per dty : ℤ) : Bool × List (PwmEv × Bool) :=
  let t0 : List (PwmEv × Bool) := [(.wEnable 0, e.en0_ok), (.wDuty 1, e.prime_ok)]
  if e.per_ok then
    if e.duty_ok then
      if e.en1_ok then
        (true, t0 ++ [(.wPeriod per, true), (.wDuty dty, true), (.wEnable 1, true)])
      else
        (false, t0 ++ [(.wPeriod per, true), (.wDuty dty, true), (.wEnable 1, false)])
    else
      (false, t0 ++ [(.wPeriod per, true), (.wDuty dty, false), (.wEnable 1, e.backoff_ok)])
  else (false, t0 ++ [(.wPeriod per, false), (.wEnable 1, e.backoff_ok)])

/-- The two-attempt fallback loop of `PWM0_set_freq`. -/
def freq_fb_loop (env : ℕ → FreqFbEnv) (per dty : ℤ) : ℕ → ℕ → Bool × List (PwmEv × Bool)
  | _, 0 => (false, [])
  | i, fuel + 1 =>
      let a := freq_fb_attempt (env i) per dty
      if a.1 then a
      else
        let r := freq_fb_loop env per dty (i + 1) fuel
        (r.1, a.2 ++ r.2)

/-- Environment of one `PWM0_set_freq` call: the `read_ll(enable)`
result, the `(void)` pre-enable write, the outcomes of fast paths A and
B, and the fallback attempts. -/
structure FreqEnv where
  enable_read : ℤ
  pre_en_ok : Bool
  a_per_ok : Bool
  a_duty_ok : Bool
  b_prime_ok : Bool
  b_per_ok : Bool
  b_duty_ok : Bool
  fb : ℕ → FreqFbEnv

/-- `PWM0_set_freq(hz)`: recompute the period from `hz` and the target
duty from the remembered ratio, then try fast path A (period, duty),
fast path B (prime, period, duty) and the two-attempt full reset, in
that order; commit the cache on the first success. -/
def PWM0_set_freq (env : FreqEnv) (hz : Frac) (s : PwmState) :
    Bool × PwmState × List (PwmEv × Bool) :=
  if s.dir_ok = false ∨ Frac.ble hz ⟨0, 1⟩ then (false, s, [])
  else
    let new_per := pwm_period_of_hz hz
    let new_dty := bounded_dc_from_ratio s.duty_frac new_per
    let commit : PwmState :=
      { s with period_ns := new_per, duty_frac := ⟨new_dty, new_per⟩ }
    let preTr : List (PwmEv × Bool) :=
      if env.enable_read = 0 then [(.wEnable 1, env.pre_en_ok)] else []
    let trA : List (PwmEv × Bool) :=
      if env.a_per_ok then
        if env.a_duty_ok then [(.wPeriod new_per, true), (.wDuty new_dty, true)]
        else [(.wPeriod new_per, true), (.wDuty new_dty, false)]
      else [(.wPeriod new_per, false)]
    if env.a_per_ok && env.a_duty_ok then (true, commit, preTr ++ trA)
    else
      let trB : List (PwmEv × Bool) :=
        if env.b_prime_ok then
          if env.b_per_ok then
            if env.b_duty_ok then
              [(.wDuty 1, true), (.wPeriod new_per, true), (.wDuty new_dty, true)]
            else [(.wDuty 1, true), (.wPeriod new_per, true), (.wDuty new_dty, false)]
          else [(.wDuty 1, true), (.wPeriod new_per, false)]
        else [(.wDuty 1, false)]
      if env.b_prime_ok && env.b_per_ok && env.b_duty_ok then
        (true, commit, preTr ++ trA ++ trB)
      else
        let r := freq_fb_loop env.fb new_per new_dty 0 2
        if r.1 then (true, commit, preTr ++ trA ++ trB ++ r.2)
        else (false, s, preTr ++ trA ++ trB ++ r.2)

/-- Environment of one `PWM0_set_duty` call: the `read_ll(period)`
result (consulted only when no period is cached), the direct write
outcome, and the fallback's enable read and write outcomes (`(void)`
except the decisive second duty write). -/
structure DutyEnv where
  period_read : ℤ
  direct_ok : Bool
  enable_read : ℤ
  en0_ok : Bool
  prime_ok : Bool
  retry_ok : Bool
  en1_ok : Bool
deriving DecidableEq, Repr

/-- `PWM0_set_duty(duty)`: fail if no directory is known or no positive
period can be resolved; otherwise remember the raw ratio, write the
bounded duty directly, and on rejection fall back to disable → prime →
write → restore-enable. -/
def PWM0_set_duty (env : DutyEnv) (duty : Frac) (s : PwmState) :
    Bool × PwmState × List (PwmEv × Bool) :=
  if s.dir_ok = false then (false, s, [])
  else if s.period_ns ≤ 0 ∧ env.period_read ≤ 0 then (false, s, [])
  else
    let s1 := if s.period_ns ≤ 0 then { s with period_ns := env.period_read } else s
    let s2 := { s1 with duty_frac := duty }
    let dc := bounded_dc_from_ratio duty s2.period_ns
    if env.direct_ok then (true, s2, [(.wDuty dc, true)])
    else
      let was_enabled := if env.enable_read < 0 then 1 else env.enable_read
      (env.retry_ok, s2,
        [(.wDuty dc, false), (.wEnable 0, env.en0_ok), (.wDuty 1, env.prime_ok),
         (.wDuty dc, env.retry_ok)]
          ++ (if was_enabled ≠ 0 then [(.wEnable 1, env.en1_ok)] else []))

-- sanity
example :
    (PWM0_set_duty ⟨1, true, 1, true, true, true, true⟩ ⟨1, 2⟩
      ⟨true, 1, ⟨1, 2⟩⟩).2.2 = [(PwmEv.wDuty 0, true)] := by decide
example :
    (PWM0_set_duty ⟨1, true, 1, true, true, true, true⟩ ⟨3, 10⟩
      PwmState.initial).1 = false := by decide

/-! ## Shared concrete environments for the PWM claims -/

/-- A chip whose `pwm0` is present with all control files. -/
def chipAllGood : ChipEnv := ⟨true, true, fun _ => true, true⟩

/-- A chip whose `pwm0` never appears within the bounded wait. -/
def chipNeverAppears : ChipEnv := ⟨false, true, fun _ => false, true⟩

/-- Bring-up attempts on which every write succeeds. -/
def initEnvAllGood : ℕ → InitAttemptEnv := fun _ => ⟨true, true, true, true, true⟩

/-- Bring-up attempts on which the period write always fails. -/
def initEnvPeriodFails : ℕ → InitAttemptEnv := fun _ => ⟨true, true, false, true, true⟩

/-- A `PWM0_set_duty` environment on which every read and write succeeds. -/
def dutyEnvAllGood : DutyEnv := ⟨1, true, 1, true, true, true, true⟩

/-- Specification-side clamp for C5/C7: the supplied fraction clamped
into the band `[5 %, 95 %]` (the spec's words; `PWM0_init` does
something else with out-of-band fractions). -/
def spec_clamp_band (f : Frac) : Frac :=
  if Frac.blt f ⟨1, 20⟩ then ⟨1, 20⟩
  else if Frac.blt ⟨19, 20⟩ f then ⟨19, 20⟩ else f

/-- C5 (counterexample): a successful open at 100 Hz (period 10^7 ns)
with supplied duty fraction 0.01 commits 5 000 000 ns — the 50 % default
— while the claim demands the clamped value 5 % · period = 500 000 ns. -/
theorem c5_init_clamp_counterexample :
    (PWM0_init [chipAllGood] initEnvAllGood ⟨100, 1⟩ ⟨1, 100⟩ PwmState.initial).1
      = true ∧
    (PWM0_init [chipAllGood] initEnvAllGood ⟨100, 1⟩ ⟨1, 100⟩ PwmState.initial).2.2
      = [(PwmEv.wEnable 0, true), (PwmEv.wDuty 1, true),
         (PwmEv.wPeriod 10000000, true), (PwmEv.wDuty 5000000, true),
         (PwmEv.wEnable 1, true)] ∧
    llround ((spec_clamp_band ⟨1, 100⟩).mulInt 10000000) = 500000 ∧
    (5000000 : ℤ) ≠ 500000 := by
  decide

/-- C5 (amended): `PWM0_init` replaces an out-of-band supplied fraction
by the default 0.50 instead of clamping it to the nearer band edge; the
committed duty ratio of a successful open is `bounded_dc_from_ratio` of
the sanitized fraction over the programmed period, so an in-band
fraction commits `llround(f · period)` nudged off the rails while a
fraction below 5 % or above 95 % commits what 0.50 would. -/
theorem c5_init_duty_amended :
    (∀ (chips : List ChipEnv) (env : ℕ → InitAttemptEnv) (hz duty : Frac)
        (s : PwmState),
      (PWM0_init chips env hz duty s).1 = true →
      (PWM0_init chips env hz duty s).2.1.duty_frac
        = ⟨bounded_dc_from_ratio (init_sanitize_duty duty)
             (pwm_period_of_hz (init_sanitize_hz hz)),
           pwm_period_of_hz (init_sanitize_hz hz)⟩) ∧
    (∀ duty : Frac,
      (Frac.blt duty ⟨1, 20⟩ || Frac.blt ⟨19, 20⟩ duty) = true →
      init_sanitize_duty duty = ⟨1, 2⟩) ∧
    (∀ duty : Frac,
      Frac.blt duty ⟨1, 20⟩ = false → Frac.blt ⟨19, 20⟩ duty = false →
      init_sanitize_duty duty = duty) := by
  refine ⟨?_, ?_, ?_⟩
  · intro chips env hz duty s h
    simp only [PWM0_init] at h ⊢
    split_ifs at h ⊢
    all_goals simp_all
  · intro duty h
    rcases Bool.or_eq_true_iff.mp h with h1 | h1
    · simp [init_sanitize_duty, h1]
    · by_cases hd : Frac.blt duty ⟨1, 20⟩
      · simp [init_sanitize_duty, hd]
      · rw [Bool.not_eq_true] at hd
        simp [init_sanitize_duty, hd, h1]
  · intro duty h1 h2
    simp [init_sanitize_duty, h1, h2]

theorem c5_init_duty_amended_witness :
    (PWM0_init [chipAllGood] initEnvAllGood ⟨100, 1⟩ ⟨1, 100⟩
        PwmState.initial).2.1.duty_frac = ⟨5000000, 10000000⟩ := by
  have h := c5_init_duty_amended.1 [chipAllGood] initEnvAllGood ⟨100, 1⟩ ⟨1, 100⟩
    PwmState.initial (by decide)
  rw [h]
  decide

theorem init_attempt_fst (e : InitAttemptEnv) (per dty : ℤ) :
    (init_attempt e per dty).1 = init_attempt_ok e := by
  unfold init_attempt init_attempt_ok
  split_ifs <;> simp_all

theorem init_attempt_count (e : InitAttemptEnv) (per dty : ℤ) :
    (init_attempt e per dty).2.countP
      (fun p => decide (p.1 = PwmEv.wEnable 0)) = 1 := by
  unfold init_attempt
  split_ifs <;> simp [List.countP_cons]

theorem init_loop_count (env : ℕ → InitAttemptEnv) (per dty : ℤ) (i fuel : ℕ) :
    (init_loop env per dty i fuel).2.countP
      (fun p => decide (p.1 = PwmEv.wEnable 0)) ≤ fuel := by
  induction fuel generalizing i with
  | zero => simp [init_loop]
  | succ n ih =>
      simp only [init_loop]
      split
      · exact le_trans (le_of_eq (init_attempt_count (env i) per dty)) (by omega)
      · simp only [List.countP_append]
        have h1 := init_attempt_count (env i) per dty
        have h2 := ih (i + 1)
        omega

theorem init_loop_all_fail (env : ℕ → InitAttemptEnv) (per dty : ℤ) (i fuel : ℕ)
    (h : ∀ j < fuel, init_attempt_ok (env (i + j)) = false) :
    (init_loop env per dty i fuel).1 = false := by
  induction fuel generalizing i with
  | zero => rfl
  | succ n ih =>
      simp only [init_loop]
      split
      · rename_i hcond
        rw [init_attempt_fst] at hcond
        have h0 := h 0 (by omega)
        rw [Nat.add_zero] at h0
        rw [h0] at hcond
        exact absurd hcond (by simp)
      · exact ih (i + 1) (fun j hj => by
          have := h (j + 1) (by omega)
          rwa [show i + 1 + j = i + (j + 1) by omega])

theorem init_loop_some_ok (env : ℕ → InitAttemptEnv) (per dty : ℤ) (i fuel : ℕ)
    (h : ∃ j < fuel, init_attempt_ok (env (i + j)) = true) :
    (init_loop env per dty i fuel).1 = true := by
  induction fuel generalizing i with
  | zero => obtain ⟨j, hj, _⟩ := h; omega
  | succ n ih =>
      simp only [init_loop]
      split
      · rename_i hcond
        exact hcond
      · rename_i hcond
        refine ih (i + 1) ?_
        obtain ⟨j, hj, hok⟩ := h
        rcases j with _ | k
        · rw [init_attempt_fst] at hcond
          rw [Nat.add_zero] at hok
          rw [hok] at hcond
          exact absurd rfl hcond
        · exact ⟨k, by omega, by rwa [show i + 1 + k = i + (k + 1) by omega]⟩

theorem probe_loop_all_fail (chips : List ChipEnv) (i : ℕ)
    (h : ∀ c ∈ chips, c.pwm0_exists = false ∧ ∀ t < 51, c.appear t = false) :
    (probe_loop chips i).1 = false := by
  induction chips generalizing i with
  | nil => rfl
  | cons c rest ih =>
      obtain ⟨hex, happ⟩ := h c (List.mem_cons_self c rest)
      have hfound : chip_wait_found c = false := by
        unfold chip_wait_found
        rw [hex]
        simp only [Bool.false_or]
        rw [← Bool.not_eq_true]
        intro hany
        obtain ⟨t, ht, hat⟩ := List.any_eq_true.mp hany
        rw [happ t (List.mem_range.mp ht)] at hat
        exact absurd hat (by simp)
      simp only [probe_loop]
      rw [hfound]
      simp only [Bool.false_and, Bool.false_eq_true, if_false]
      exact ih (i + 1) (fun u hu => h u (List.mem_cons_of_mem c hu))

theorem probe_loop_events_export (chips : List ChipEnv) (i : ℕ) (p : PwmEv × Bool)
    (hp : p ∈ (probe_loop chips i).2) : ∃ k, p.1 = PwmEv.wExport k := by
  induction chips generalizing i with
  | nil => exact absurd hp (by simp [probe_loop])
  | cons c rest ih =>
      simp only [probe_loop] at hp
      split at hp
      · split at hp
        · exact absurd hp (by simp)
        · rcases List.mem_singleton.mp hp with rfl
          exact ⟨i, rfl⟩
      · split at hp
        · rcases List.mem_append.mp hp with h1 | h1
          · exact absurd h1 (by simp)
          · exact ih (i + 1) h1
        · rcases List.mem_append.mp hp with h1 | h1
          · rcases List.mem_singleton.mp h1 with rfl
            exact ⟨i, rfl⟩
          · exact ih (i + 1) h1

theorem probe_countP_zero (dir_ok : Bool) (chips : List ChipEnv) :
    (probe_find_pwm dir_ok chips).2.countP
      (fun p => decide (p.1 = PwmEv.wEnable 0)) = 0 := by
  cases dir_ok with
  | true => rfl
  | false =>
      refine List.countP_eq_zero.mpr (fun a ha => ?_)
      obtain ⟨k, hk⟩ := probe_loop_events_export chips 0 a ha
      simp [hk]

theorem probe_no_enable (dir_ok : Bool) (chips : List ChipEnv) (v : ℤ) (ok : Bool) :
    (PwmEv.wEnable v, ok) ∉ (probe_find_pwm dir_ok chips).2 := by
  cases dir_ok with
  | true => simp [probe_find_pwm]
  | false =>
      intro hmem
      obtain ⟨k, hk⟩ := probe_loop_events_export chips 0 _ hmem
      exact absurd hk (by simp)

/-- C6: `PWM0_init` executes the 5-step bring-up sequence at most 3
times, retrying only when one of the checked steps 3–5 fails; it returns
an error whenever all attempts fail and leaves the cached period and
duty ratio untouched then; a successful attempt makes it succeed and
cache the programmed period and committed duty ratio; and if `pwm0`
never appears within the bounded 50 x 10 ms wait on any chip, it fails
without attempting a single enable write. -/
theorem c6_init_retry_and_bounded_wait
    (chips : List ChipEnv) (env : ℕ → InitAttemptEnv) (hz duty : Frac)
    (s : PwmState) :
    ((PWM0_init chips env hz duty s).2.2.countP
        (fun p => decide (p.1 = PwmEv.wEnable 0)) ≤ 3) ∧
    ((PWM0_init chips env hz duty s).1 = false →
      (PWM0_init chips env hz duty s).2.1.period_ns = s.period_ns ∧
      (PWM0_init chips env hz duty s).2.1.duty_frac = s.duty_frac) ∧
    ((∀ i < 3, init_attempt_ok (env i) = false) →
      (PWM0_init chips env hz duty s).1 = false) ∧
    ((probe_find_pwm s.dir_ok chips).1 = true →
      (∃ i < 3, init_attempt_ok (env i) = true) →
      (PWM0_init chips env hz duty s).1 = true) ∧
    ((PWM0_init chips env hz duty s).1 = true →
      (PWM0_init chips env hz duty s).2.1.period_ns
          = pwm_period_of_hz (init_sanitize_hz hz) ∧
      (PWM0_init chips env hz duty s).2.1.duty_frac
          = ⟨bounded_dc_from_ratio (init_sanitize_duty duty)
               (pwm_period_of_hz (init_sanitize_hz hz)),
             pwm_period_of_hz (init_sanitize_hz hz)⟩) ∧
    ((∀ c ∈ chips, c.pwm0_exists = false ∧ ∀ t < 51, c.appear t = false) →
      s.dir_ok = false →
      (PWM0_init chips env hz duty s).1 = false ∧
      ∀ (v : ℤ) (ok : Bool),
        (PwmEv.wEnable v, ok) ∉ (PWM0_init chips env hz duty s).2.2) := by
  refine ⟨?_, ?_, ?_, ?_, ?_, ?_⟩
  · have hc0 := probe_countP_zero s.dir_ok chips
    have hc3 := init_loop_count env (pwm_period_of_hz (init_sanitize_hz hz))
      (bounded_dc_from_ratio (init_sanitize_duty duty)
        (pwm_period_of_hz (init_sanitize_hz hz))) 0 3
    simp only [PWM0_init]
    split_ifs <;> simp only [List.countP_append] <;> omega
  · intro hfail
    simp only [PWM0_init] at hfail ⊢
    split_ifs at hfail ⊢
    all_goals simp_all
  · intro h
    have hl := init_loop_all_fail env (pwm_period_of_hz (init_sanitize_hz hz))
      (bounded_dc_from_ratio (init_sanitize_duty duty)
        (pwm_period_of_hz (init_sanitize_hz hz))) 0 3
      (fun j hj => by simpa using h j hj)
    simp only [PWM0_init]
    split_ifs <;> simp_all
  · intro hprobe hex
    have hl := init_loop_some_ok env (pwm_period_of_hz (init_sanitize_hz hz))
      (bounded_dc_from_ratio (init_sanitize_duty duty)
        (pwm_period_of_hz (init_sanitize_hz hz))) 0 3
      (by obtain ⟨i, hi, hok⟩ := hex; exact ⟨i, hi, by simpa using hok⟩)
    simp only [PWM0_init]
    split_ifs <;> simp_all
  · intro h
    simp only [PWM0_init] at h ⊢
    split_ifs at h ⊢
    all_goals simp_all
  · intro hchips hdir
    have hprobe : (probe_find_pwm s.dir_ok chips).1 = false := by
      rw [hdir]
      simpa [probe_find_pwm] using probe_loop_all_fail chips 0 hchips
    constructor
    · simp only [PWM0_init]
      split_ifs
      all_goals simp_all
    · intro v ok
      simp only [PWM0_init]
      split_ifs
      all_goals simp_all
      exact probe_no_enable false chips v ok

theorem c6_init_retry_and_bounded_wait_witness :
    (PWM0_init [chipNeverAppears] initEnvAllGood ⟨100, 1⟩ ⟨1, 2⟩
        PwmState.initial).1 = false ∧
    (PWM0_init [chipAllGood] initEnvPeriodFails ⟨100, 1⟩ ⟨1, 2⟩
        PwmState.initial).1 = false ∧
    (PWM0_init [chipAllGood] initEnvAllGood ⟨100, 1⟩ ⟨1, 2⟩
        PwmState.initial).1 = true := by
  refine ⟨((c6_init_retry_and_bounded_wait [chipNeverAppears] initEnvAllGood
      ⟨100, 1⟩ ⟨1, 2⟩ PwmState.initial).2.2.2.2.2 (by decide) rfl).1, ?_, ?_⟩
  · exact (c6_init_retry_and_bounded_wait [chipAllGood] initEnvPeriodFails
      ⟨100, 1⟩ ⟨1, 2⟩ PwmState.initial).2.2.1 (by decide)
  · exact (c6_init_retry_and_bounded_wait [chipAllGood] initEnvAllGood
      ⟨100, 1⟩ ⟨1, 2⟩ PwmState.initial).2.2.2.1 (by decide) (by decide)

theorem bounded_dc_strict (r : Frac) (per : ℤ) (h : 2 ≤ per) :
    0 < bounded_dc_from_ratio r per ∧ bounded_dc_from_ratio r per < per := by
  simp only [bounded_dc_from_ratio]
  split_ifs <;> omega

theorem bounded_dc_in_band (f : Frac) (per : ℤ) (h2 : 2 ≤ per)
    (h1 : Frac.blt f ⟨1, 20⟩ = false) (h3 : Frac.blt ⟨19, 20⟩ f = false) :
    bounded_dc_from_ratio f per
      = min (max (llround (f.mulInt per)) 1) (per - 1) := by
  simp [bounded_dc_from_ratio, h1, h3]
  split_ifs <;> omega

theorem bounded_dc_low (f : Frac) (per : ℤ) (h : Frac.blt f ⟨1, 20⟩ = true) :
    bounded_dc_from_ratio f per = bounded_dc_from_ratio ⟨1, 20⟩ per := by
  simp [bounded_dc_from_ratio, h]

theorem bounded_dc_high (f : Frac) (per : ℤ)
    (h1 : Frac.blt f ⟨1, 20⟩ = false) (h : Frac.blt ⟨19, 20⟩ f = true) :
    bounded_dc_from_ratio f per = bounded_dc_from_ratio ⟨19, 20⟩ per := by
  have hc1 : Frac.blt (⟨19, 20⟩ : Frac) ⟨1, 20⟩ = false := by decide
  have hc2 : Frac.blt (⟨19, 20⟩ : Frac) ⟨19, 20⟩ = false := by decide
  simp [bounded_dc_from_ratio, h, h1, hc1, hc2]

/-- C7 (counterexample): the claim says every committed duty lies
strictly inside `(0, period)`.  But a period of 1 ns is reachable (open
at 10 GHz rounds `1e9/hz` to 0 and clamps it to 1), and `set_duty(0.5)`
on that state commits an absolute duty of exactly 0 — a rail value. -/
theorem c7_set_duty_counterexample :
    (PWM0_init [chipAllGood] initEnvAllGood ⟨10000000000, 1⟩ ⟨1, 2⟩
        PwmState.initial).1 = true ∧
    (PWM0_init [chipAllGood] initEnvAllGood ⟨10000000000, 1⟩ ⟨1, 2⟩
        PwmState.initial).2.1.period_ns = 1 ∧
    (PWM0_set_duty dutyEnvAllGood ⟨1, 2⟩
        (PWM0_init [chipAllGood] initEnvAllGood ⟨10000000000, 1⟩ ⟨1, 2⟩
          PwmState.initial).2.1).1 = true ∧
    (PWM0_set_duty dutyEnvAllGood ⟨1, 2⟩
        (PWM0_init [chipAllGood] initEnvAllGood ⟨10000000000, 1⟩ ⟨1, 2⟩
          PwmState.initial).2.1).2.2 = [(PwmEv.wDuty 0, true)] ∧
    ¬ (0 < (0 : ℤ)) := by
  decide

/-- C7 (amended): for a period of at least 2 ns, the duty value
`set_duty(f)` writes lies strictly inside `(0, period)` and equals
`llround(f · period)` clamped into `[1, period − 1]` for in-band `f`,
with out-of-band `f` first clamped to 5 % or 95 %; on a period of 1 ns
the written value is 0 instead.  A successful direct write is the only
hardware write; a rejected one is followed by disable, prime to 1 ns,
the target duty again, and an enable only when the channel was enabled
(or its state unreadable) before the call. -/
theorem c7_set_duty_amended (env : DutyEnv) (f : Frac) (s : PwmState) :
    (2 ≤ s.period_ns →
      0 < bounded_dc_from_ratio f s.period_ns ∧
      bounded_dc_from_ratio f s.period_ns < s.period_ns) ∧
    (2 ≤ s.period_ns → Frac.blt f ⟨1, 20⟩ = false →
      Frac.blt ⟨19, 20⟩ f = false →
      bounded_dc_from_ratio f s.period_ns
        = min (max (llround (f.mulInt s.period_ns)) 1) (s.period_ns - 1)) ∧
    (Frac.blt f ⟨1, 20⟩ = true →
      bounded_dc_from_ratio f s.period_ns
        = bounded_dc_from_ratio ⟨1, 20⟩ s.period_ns) ∧
    (Frac.blt f ⟨1, 20⟩ = false → Frac.blt ⟨19, 20⟩ f = true →
      bounded_dc_from_ratio f s.period_ns
        = bounded_dc_from_ratio ⟨19, 20⟩ s.period_ns) ∧
    (s.dir_ok = true → 0 < s.period_ns → env.direct_ok = true →
      PWM0_set_duty env f s
        = (true, { s with duty_frac := f },
            [(PwmEv.wDuty (bounded_dc_from_ratio f s.period_ns), true)])) ∧
    (s.dir_ok = true → 0 < s.period_ns → env.direct_ok = false →
      PWM0_set_duty env f s
        = (env.retry_ok, { s with duty_frac := f },
            [(PwmEv.wDuty (bounded_dc_from_ratio f s.period_ns), false),
             (PwmEv.wEnable 0, env.en0_ok), (PwmEv.wDuty 1, env.prime_ok),
             (PwmEv.wDuty (bounded_dc_from_ratio f s.period_ns), env.retry_ok)]
              ++ (if (if env.enable_read < 0 then 1 else env.enable_read) ≠ 0
                  then [(PwmEv.wEnable 1, env.en1_ok)] else []))) := by
  refine ⟨fun h => bounded_dc_strict f s.period_ns h,
    fun h2 h1 h3 => bounded_dc_in_band f s.period_ns h2 h1 h3,
    fun h => bounded_dc_low f s.period_ns h,
    fun h1 h => bounded_dc_high f s.period_ns h1 h, ?_, ?_⟩
  · intro hdir hper hdirect
    simp only [PWM0_set_duty]
    split_ifs
    all_goals first
      | rfl
      | (exfalso; omega)
      | simp_all
  · intro hdir hper hdirect
    simp only [PWM0_set_duty]
    split_ifs
    all_goals first
      | rfl
      | (exfalso; omega)
      | simp_all

theorem c7_set_duty_amended_witness :
    0 < bounded_dc_from_ratio ⟨3, 10⟩ 10 ∧
    PWM0_set_duty dutyEnvAllGood ⟨3, 10⟩ ⟨true, 10, ⟨1, 2⟩⟩
      = (true, ⟨true, 10, ⟨3, 10⟩⟩, [(PwmEv.wDuty 3, true)]) := by
  have h := c7_set_duty_amended dutyEnvAllGood ⟨3, 10⟩ ⟨true, 10, ⟨1, 2⟩⟩
  refine ⟨(h.1 (by decide)).1, ?_⟩
  rw [h.2.2.2.2.1 rfl (by decide) rfl]
  decide

theorem freq_fb_attempt_duty (e : FreqFbEnv) (per dty : ℤ) (v : ℤ) (ok : Bool)
    (h : (PwmEv.wDuty v, ok) ∈ (freq_fb_attempt e per dty).2) :
    v = 1 ∨ v = dty := by
  unfold freq_fb_attempt at h
  split_ifs at h <;> simp at h <;> tauto

theorem freq_fb_loop_duty (env : ℕ → FreqFbEnv) (per dty : ℤ) (i fuel : ℕ)
    (v : ℤ) (ok : Bool)
    (h : (PwmEv.wDuty v, ok) ∈ (freq_fb_loop env per dty i fuel).2) :
    v = 1 ∨ v = dty := by
  induction fuel generalizing i with
  | zero => exact absurd h (by simp [freq_fb_loop])
  | succ n ih =>
      simp only [freq_fb_loop] at h
      split at h
      · exact freq_fb_attempt_duty (env i) per dty v ok h
      · rcases List.mem_append.mp h with h1 | h1
        · exact freq_fb_attempt_duty (env i) per dty v ok h1
        · exact ih (i + 1) h1

set_option maxHeartbeats 2000000 in
theorem c10_freq_duty_target (env : FreqEnv) (hz : Frac) (s : PwmState)
    (v : ℤ) (ok : Bool)
    (h : (PwmEv.wDuty v, ok) ∈ (PWM0_set_freq env hz s).2.2) :
    v = 1 ∨ v = bounded_dc_from_ratio s.duty_frac (pwm_period_of_hz hz) := by
  simp only [PWM0_set_freq] at h
  split_ifs at h
  all_goals try rcases List.mem_append.mp h with h | h
  all_goals try rcases List.mem_append.mp h with h | h
  all_goals try rcases List.mem_append.mp h with h | h
  all_goals
    first
      | exact freq_fb_loop_duty env.fb _ _ 0 2 v ok h
      | (simp at h
         try tauto)

/-- A `PWM0_set_freq` environment on which every read and write succeeds. -/
def freqEnvAllGood : FreqEnv :=
  ⟨1, true, true, true, true, true, true, fun _ => ⟨true, true, true, true, true, true⟩⟩

/-- C10 (counterexample): the claim says the remembered ratio equals the
raw argument even when the call fails; but `PWM0_set_duty` called before
any successful probe (empty `g_pwm_dir`) fails on its first guard and
leaves the remembered ratio at its previous value 0.50. -/
theorem c10_raw_ratio_counterexample :
    (PWM0_set_duty dutyEnvAllGood ⟨3, 10⟩ PwmState.initial).1 = false ∧
    (PWM0_set_duty dutyEnvAllGood ⟨3, 10⟩ PwmState.initial).2.1.duty_frac
      = ⟨1, 2⟩ ∧
    ((⟨1, 2⟩ : Frac) ≠ ⟨3, 10⟩) := by
  decide

/-- C10 (amended): once the directory is known and a positive period is
resolvable, `PWM0_set_duty(f)` overwrites the remembered duty ratio with
the raw argument `f` — unclamped, before the duty write, and regardless
of whether any write succeeds or `f` is outside `[0.05, 0.95]`; a
subsequent `PWM0_set_freq` derives every duty value it writes (besides
the 1 ns prime) as `bounded_dc_from_ratio` of that stored raw ratio over
the new period, clamping only at use time, and commits exactly that
value on success. -/
theorem c10_set_duty_raw_ratio_amended (env : DutyEnv) (f : Frac) (s : PwmState) :
    (s.dir_ok = true → (0 < s.period_ns ∨ 0 < env.period_read) →
      (PWM0_set_duty env f s).2.1.duty_frac = f) ∧
    (∀ (fenv : FreqEnv) (hz : Frac) (v : ℤ) (ok : Bool),
      (PwmEv.wDuty v, ok) ∈ (PWM0_set_freq fenv hz s).2.2 →
      v = 1 ∨ v = bounded_dc_from_ratio s.duty_frac (pwm_period_of_hz hz)) ∧
    (∀ (fenv : FreqEnv) (hz : Frac),
      (PWM0_set_freq fenv hz s).1 = true →
      (PWM0_set_freq fenv hz s).2.1.duty_frac
        = ⟨bounded_dc_from_ratio s.duty_frac (pwm_period_of_hz hz),
           pwm_period_of_hz hz⟩) := by
  refine ⟨?_, fun fenv hz v ok h => c10_freq_duty_target fenv hz s v ok h, ?_⟩
  · intro hdir hper
    simp only [PWM0_set_duty]
    split_ifs
    all_goals first
      | rfl
      | (exfalso; rcases hper with hp | hp <;> omega)
      | simp_all
  · intro fenv hz h
    simp only [PWM0_set_freq] at h ⊢
    split_ifs at h ⊢
    all_goals simp_all

theorem c10_set_duty_raw_ratio_amended_witness :
    (PWM0_set_duty ⟨1, false, 1, true, true, false, true⟩ ⟨99, 100⟩
        ⟨true, 10, ⟨1, 2⟩⟩).1 = false ∧
    (PWM0_set_duty ⟨1, false, 1, true, true, false, true⟩ ⟨99, 100⟩
        ⟨true, 10, ⟨1, 2⟩⟩).2.1.duty_frac = ⟨99, 100⟩ ∧
    ((5000000 : ℤ) = 1 ∨ (5000000 : ℤ)
        = bounded_dc_from_ratio ⟨1, 2⟩ (pwm_period_of_hz ⟨100, 1⟩)) := by
  refine ⟨by decide, ?_, ?_⟩
  · exact (c10_set_duty_raw_ratio_amended ⟨1, false, 1, true, true, false, true⟩
      ⟨99, 100⟩ ⟨true, 10, ⟨1, 2⟩⟩).1 rfl (by decide)
  · exact (c10_set_duty_raw_ratio_amended ⟨1, false, 1, true, true, false, true⟩
      ⟨99, 100⟩ ⟨true, 10, ⟨1, 2⟩⟩).2.1 freqEnvAllGood ⟨100, 1⟩ 5000000 true
      (by decide)

/-! ## `servo.c` — servo layer

The servo keeps its own struct; the `PWM0_CHIP` environment override and
the sysfs path strings play no role in the claims and are omitted.
`wrc` is the result (`0` or `-errno`) the environment gives the one duty
write a motion operation performs; the `List ℤ` component of a result is
the list of absolute duty values written to the hardware. -/

structure Servo where
  chip : ℤ
  channel : ℤ
  period_ns : ℤ
  neutral_ns : ℤ
  min_ns : ℤ
  max_ns : ℤ
  enabled : Bool
deriving DecidableEq, Repr

/-- `clamp` of `servo.c`. -/
def c_clamp (v lo hi : ℤ) : ℤ := if v < lo then lo else if v > hi then hi else v

/-- `pct_to_ns`: clamp the percentage into `[0, 100]`; the span is
`|max_ns − neutral_ns|` for BOTH directions; delta is `span*pct/100`
(non-negative operands, so C's truncating division). -/
def pct_to_ns (s : Servo) (pct dir : ℤ) : ℤ :=
  let pct1 := c_clamp pct 0 100
  let span0 := s.max_ns - s.neutral_ns
  let span := if span0 < 0 then -span0 else span0
  let delta := Int.tdiv (span * pct1) 100
  if dir ≥ 0 then s.neutral_ns + delta else s.neutral_ns - delta

/-- `servo_set_pulse_ns`: `-EIO` (−5) with no write when not enabled;
otherwise clamp into `[min_ns, max_ns]` and perform one direct duty
write, surfacing its result unchanged. -/
def servo_set_pulse_ns (wrc : ℤ) (s : Servo) (duty_ns : ℤ) : ℤ × List ℤ :=
  if s.enabled = false then (-5, [])
  else (wrc, [c_clamp duty_ns s.min_ns s.max_ns])

/-- `servo_right`. -/
def servo_right (wrc : ℤ) (s : Servo) (pct : ℤ) : ℤ × List ℤ :=
  servo_set_pulse_ns wrc s (pct_to_ns s pct 1)

/-- `servo_left`. -/
def servo_left (wrc : ℤ) (s : Servo) (pct : ℤ) : ℤ × List ℤ :=
  servo_set_pulse_ns wrc s (pct_to_ns s pct (-1))

/-- `servo_stop`. -/
def servo_stop (wrc : ℤ) (s : Servo) : ℤ × List ℤ :=
  servo_set_pulse_ns wrc s s.neutral_ns

/-- `servo_close`: best-effort disable and unexport (writes that are not
duty writes), then `enabled := false` unconditionally, returning 0. -/
def servo_close (s : Servo) : ℤ × Servo :=
  (0, { s with enabled := false })

/-- Write results for `servo_init`: the export step and the three
checked writes (period, neutral duty, enable); the priming and polarity
writes are unchecked. -/
structure SInitEnv where
  rc_export : ℤ
  rc_period : ℤ
  rc_duty : ℤ
  rc_enable : ℤ
deriving DecidableEq, Repr

/-- `servo_init`: populate the struct with `enabled = false`, then
export, program period and neutral duty, and enable; the first failing
step returns its error with `enabled` still false; only full success
sets `enabled`. -/
def servo_init (env : SInitEnv)
    (chip channel period neutral minNs maxNs : ℤ) : ℤ × Servo :=
  let s : Servo := ⟨chip, channel, period, neutral, minNs, maxNs, false⟩
  if env.rc_export ≠ 0 then (env.rc_export, s)
  else if env.rc_period ≠ 0 then (env.rc_period, s)
  else if env.rc_duty ≠ 0 then (env.rc_duty, s)
  else if env.rc_enable ≠ 0 then (env.rc_enable, s)
  else (0, { s with enabled := true })

/-- The spec's formula for `left(pct)`: neutral minus `pct` percent of
the span from neutral DOWN TO `min_ns` (the spec's words; the code uses
the span up to `max_ns` for both directions). -/
def spec_left_ns (s : Servo) (pct : ℤ) : ℤ :=
  s.neutral_ns - Int.tdiv ((s.neutral_ns - s.min_ns) * c_clamp pct 0 100) 100

/-- C8 (counterexample): on asymmetric bounds (neutral 1 600 000,
min 1 000 000, max 2 000 000) the claim's `left(100)` is
`neutral − span-to-min = 1 000 000`, but the code commits
`neutral − |max − neutral| = 1 200 000`: both directions use the span to
`max_ns`. -/
theorem c8_left_span_counterexample :
    servo_left 0 ⟨0, 0, 20000000, 1600000, 1000000, 2000000, true⟩ 100
      = (0, [1200000]) ∧
    spec_left_ns ⟨0, 0, 20000000, 1600000, 1000000, 2000000, true⟩ 100
      = 1000000 ∧
    (1200000 : ℤ) ≠ 1000000 := by
  decide

/-- C8 (amended): `left(pct)` and `right(pct)` both use the single span
`|max_ns − neutral_ns|`: they commit `neutral ∓ (span · pct)/100`
clamped into `[min_ns, max_ns]` (pct itself clamped into `[0, 100]`);
`stop()` is exactly `set_pulse_ns(neutral_ns)`; on the symmetric bounds
of the claim's scenario `left(100)` still commits 1 200 000 ns. -/
theorem c8_left_right_stop_amended (s : Servo) (pct wrc : ℤ) :
    (s.enabled = true →
      servo_left wrc s pct
        = (wrc, [c_clamp
            (s.neutral_ns -
              Int.tdiv ((if s.max_ns - s.neutral_ns < 0
                         then -(s.max_ns - s.neutral_ns)
                         else s.max_ns - s.neutral_ns) * c_clamp pct 0 100) 100)
            s.min_ns s.max_ns])) ∧
    (s.enabled = true →
      servo_right wrc s pct
        = (wrc, [c_clamp
            (s.neutral_ns +
              Int.tdiv ((if s.max_ns - s.neutral_ns < 0
                         then -(s.max_ns - s.neutral_ns)
                         else s.max_ns - s.neutral_ns) * c_clamp pct 0 100) 100)
            s.min_ns s.max_ns])) ∧
    servo_stop wrc s = servo_set_pulse_ns wrc s s.neutral_ns ∧
    servo_left 0 ⟨0, 0, 20000000, 1600000, 1200000, 2000000, true⟩ 100
      = (0, [1200000]) := by
  refine ⟨?_, ?_, rfl, by decide⟩
  · intro h
    simp [servo_left, servo_set_pulse_ns, pct_to_ns, h]
  · intro h
    simp [servo_right, servo_set_pulse_ns, pct_to_ns, h]

theorem c8_left_right_stop_amended_witness :
    servo_left 0 ⟨0, 0, 20000000, 1600000, 1200000, 2000000, true⟩ 40
      = (0, [1440000]) := by
  rw [(c8_left_right_stop_amended
    ⟨0, 0, 20000000, 1600000, 1200000, 2000000, true⟩ 40 0).1 rfl]
  decide

/-- C9: every motion operation called on a servo that is not enabled —
the state before a successful `servo_init` (including after any failed
init step) or after `servo_close` — returns `-EIO` immediately and
writes nothing to the hardware. -/
theorem c9_motion_requires_enabled (s : Servo) (wrc d pct : ℤ) :
    (s.enabled = false →
      servo_set_pulse_ns wrc s d = (-5, []) ∧
      servo_left wrc s pct = (-5, []) ∧
      servo_right wrc s pct = (-5, []) ∧
      servo_stop wrc s = (-5, [])) ∧
    (servo_close s).2.enabled = false ∧
    servo_set_pulse_ns wrc (servo_close s).2 d = (-5, []) ∧
    (∀ (env : SInitEnv) (chip channel period neutral minNs maxNs : ℤ),
      (servo_init env chip channel period neutral minNs maxNs).1 ≠ 0 →
      (servo_init env chip channel period neutral minNs maxNs).2.enabled
        = false) := by
  refine ⟨?_, rfl, rfl, ?_⟩
  · intro h
    refine ⟨?_, ?_, ?_, ?_⟩ <;> simp [servo_set_pulse_ns, servo_left,
      servo_right, servo_stop, h]
  · intro env chip channel period neutral minNs maxNs h
    simp only [servo_init] at h ⊢
    split_ifs at h ⊢ <;> simp_all

theorem c9_motion_requires_enabled_witness :
    servo_left 0 ⟨0, 0, 20000000, 1600000, 1200000, 2000000, false⟩ 50
      = (-5, []) ∧
    (servo_init ⟨0, -22, 0, 0⟩ 0 0 20000000 1600000 1200000 2000000).2.enabled
      = false := by
  refine ⟨((c9_motion_requires_enabled
      ⟨0, 0, 20000000, 1600000, 1200000, 2000000, false⟩ 0 0 50).1 rfl).2.1, ?_⟩
  exact (c9_motion_requires_enabled
      ⟨0, 0, 20000000, 1600000, 1200000, 2000000, false⟩ 0 0 50).2.2.2
    ⟨0, -22, 0, 0⟩ 0 0 20000000 1600000 1200000 2000000 (by decide)
